import Mathlib

/- Verification of the agent orchestration core of crypto-ai-dca-advisor-rs.

   The development shallowly embeds the `agent-core` crate: the
   message/conversation model (`src/crates/agent-core/src/message.rs`), the
   tool contract and registry (`tool.rs`), the provider-chain selection
   (`provider.rs`), the error taxonomy (`error.rs`) and the reasoning loop
   (`reasoning.rs`).  Rust `usize`/`u32` arithmetic on counters and length
   estimates is modelled on `Nat`: none of these quantities can reach the
   wrap-around threshold (2^64 loop iterations / 2^32 estimated tokens) in
   any execution the claims are about.  Wall-clock timestamps, floating-point
   sampling options and the tokio execution order are not modelled; the
   external crates `serde_json` (`from_str::<ToolCall>`) and `uuid`
   (`Uuid::new_v4`) are treated as opaque parameters of the embedding. -/

namespace AgentCore

/-- JSON values (`serde_json::Value`).  Numbers are modelled as a decimal
mantissa/exponent pair; no claim settled here inspects a numeric payload. -/
inductive Json : Type
  | null : Json
  | bool (b : Bool) : Json
  | num (mantissa : Int) (exp10 : Int) : Json
  | str (s : String) : Json
  | arr (items : List Json) : Json
  | obj (fields : List (String × Json)) : Json

/-- Role of a message sender (`message.rs`, `enum Role`). -/
inductive Role : Type
  | system
  | user
  | assistant
  | tool
  deriving DecidableEq

/-- Additional message metadata (`message.rs`, `struct MessageMetadata`). -/
structure MessageMetadata : Type where
  tokens : Option Nat := none
  toolCallId : Option String := none
  model : Option String := none
  extra : List (String × Json) := []

/-- A single message in a conversation (`message.rs`, `struct Message`).
The `timestamp: DateTime<Utc>` field is wall-clock data and is not modelled;
no operation of the core reads it. -/
structure Message : Type where
  role : Role
  content : String
  name : Option String := none
  metadata : Option MessageMetadata := none

/-- Message::new. -/
def Message.mkMsg (role : Role) (content : String) : Message :=
  { role := role, content := content, name := none, metadata := none }

/-- Message::system. -/
def Message.system (content : String) : Message :=
  Message.mkMsg Role.system content

/-- Message::user. -/
def Message.user (content : String) : Message :=
  Message.mkMsg Role.user content

/-- Message::assistant. -/
def Message.assistant (content : String) : Message :=
  Message.mkMsg Role.assistant content

/-- Message::tool: attaches metadata only when a tool-call id is present. -/
def Message.toolMsg (content : String) (toolCallId : Option String) : Message :=
  match toolCallId with
  | some i =>
    { Message.mkMsg Role.tool content with
      metadata := some { toolCallId := some i } }
  | none => Message.mkMsg Role.tool content

/-- Message::estimate_tokens: `(content.len() / 4) as u32 + 4`.  Rust
`String::len` is the UTF-8 byte length, hence `utf8ByteSize`. -/
def Message.estimateTokens (m : Message) : Nat :=
  m.content.utf8ByteSize / 4 + 4

/-- Conversation history (`message.rs`, `struct Conversation`); the budget
default mirrors `default_max_context()`. -/
structure Conversation : Type where
  messages : List Message
  maxContextTokens : Nat := 8192

/-- Conversation::push. -/
def Conversation.push (c : Conversation) (m : Message) : Conversation :=
  { c with messages := c.messages ++ [m] }

/-- Sum of per-message estimates over a message list (body of
Conversation::estimate_tokens). -/
def conversationEstimateL (msgs : List Message) : Nat :=
  (msgs.map Message.estimateTokens).sum

/-- Conversation::estimate_tokens. -/
def Conversation.estimateTokens (c : Conversation) : Nat :=
  conversationEstimateL c.messages

/-- Vec::remove at index `i` (callers only use in-range indices). -/
def removeAt (l : List α) (i : Nat) : List α :=
  l.take i ++ l.drop (i + 1)

/-- The `position(|m| m.role != Role::System)` scan inside
Conversation::truncate_to_fit. -/
def firstNonSystemIdx : List Message → Option Nat
  | [] => none
  | m :: rest =>
    if m.role ≠ Role.system then some 0
    else (firstNonSystemIdx rest).map (· + 1)

/-- One pass of the `while` loop of Conversation::truncate_to_fit:
`some next` when the body removes a message and loops again, `none` when
the loop exits (guard false, no non-System message, or only the final
message is non-System). -/
def truncateStep (maxTok : Nat) (msgs : List Message) : Option (List Message) :=
  if conversationEstimateL msgs > maxTok ∧ msgs.length > 2 then
    match firstNonSystemIdx msgs with
    | some pos =>
      if pos < msgs.length - 1 then some (removeAt msgs pos) else none
    | none => none
  else none

/-- The `while` loop of Conversation::truncate_to_fit, iterated to its exit. -/
def truncateLoop (maxTok : Nat) (msgs : List Message) : List Message :=
  match h : truncateStep maxTok msgs with
  | some next => truncateLoop maxTok next
  | none => msgs
termination_by msgs.length
decreasing_by
  unfold truncateStep at h
  split at h
  · split at h
    · split at h
      · rename_i hguard pos hf hp
        have hnext : next = removeAt msgs pos := by simpa using h.symm
        subst hnext
        simp only [removeAt, List.length_append, List.length_take,
          List.length_drop]
        omega
      · exact absurd h (by simp)
    · exact absurd h (by simp)
  · exact absurd h (by simp)

/-- Conversation::truncate_to_fit. -/
def Conversation.truncateToFit (c : Conversation) : Conversation :=
  { c with messages := truncateLoop c.maxContextTokens c.messages }

/-- Number of messages of a given role (used to state the loop claims). -/
def countRole (r : Role) (msgs : List Message) : Nat :=
  (msgs.filter (fun m => m.role == r)).length

/-- Agent error taxonomy (`error.rs`, `enum AgentError`).  The `Io` and
`Json` variants wrap foreign error values; only their display text matters
here, so they carry it directly. -/
inductive AgentError : Type
  | provider (msg : String)
  | providerUnavailable (msg : String)
  | toolNotFound (name : String)
  | toolValidation (msg : String)
  | toolExecution (msg : String)
  | maxIterations (n : Nat)
  | contextOverflow (used maxTok : Nat)
  | parse (msg : String)
  | session (msg : String)
  | config (msg : String)
  | rateLimited (msg : String)
  | auth (msg : String)
  | ioError (msg : String)
  | jsonError (msg : String)
  | other (msg : String)
  deriving DecidableEq

/-- Display text of an AgentError, after the thiserror `#[error(...)]`
attributes in `error.rs`. -/
def renderAgentError : AgentError → String
  | .provider msg => "Provider error: " ++ msg
  | .providerUnavailable msg => "Provider unavailable: " ++ msg
  | .toolNotFound name => "Tool not found: " ++ name
  | .toolValidation msg => "Tool validation error: " ++ msg
  | .toolExecution msg => "Tool execution error: " ++ msg
  | .maxIterations n => "Maximum iterations (" ++ toString n ++ ") reached"
  | .contextOverflow used maxTok =>
    "Context length exceeded: " ++ toString used ++ " tokens (max: " ++
      toString maxTok ++ ")"
  | .parse msg => "Parse error: " ++ msg
  | .session msg => "Session error: " ++ msg
  | .config msg => "Configuration error: " ++ msg
  | .rateLimited msg => "Rate limited: " ++ msg
  | .auth msg => "Authentication failed: " ++ msg
  | .ioError msg => "IO error: " ++ msg
  | .jsonError msg => "JSON error: " ++ msg
  | .other msg => msg

/-- Tool call request (`tool.rs`, `struct ToolCall`); the HashMap of
arguments is modelled as an association list, and the serde `#[serde(default)]`
on `id` makes an absent id parse to `none`. -/
structure ToolCall : Type where
  name : String
  arguments : List (String × Json)
  id : Option String := none

/-- Result of tool execution (`tool.rs`, `struct ToolResult`). -/
structure ToolResult : Type where
  name : String
  id : Option String
  success : Bool
  output : String
  data : Option Json

/-- Parameter definition of a tool schema (`tool.rs`, `struct
ParameterSchema`). -/
structure ParameterSchema : Type where
  name : String
  paramType : String
  description : String
  required : Bool
  default : Option Json
  enumValues : Option (List Json)

/-- Tool definition schema (`tool.rs`, `struct ToolSchema`). -/
structure ToolSchema : Type where
  name : String
  description : String
  parameters : List ParameterSchema
  category : Option String
  hasSideEffects : Bool

/-- HashMap::contains_key on the modelled arguments map. -/
def argsContainKey (args : List (String × Json)) (key : String) : Bool :=
  args.any (fun kv => kv.1 == key)

/-- The `for param in &schema.parameters` scan of the default
`Tool::validate`: first parameter that is required but absent from the
arguments. -/
def firstMissingRequired (args : List (String × Json)) :
    List ParameterSchema → Option ParameterSchema
  | [] => none
  | p :: rest =>
    if p.required = true ∧ argsContainKey args p.name = false then some p
    else firstMissingRequired args rest

/-- Error message built by the default `Tool::validate`. -/
def missingParamMsg (name : String) : String :=
  "Missing required parameter: " ++ name

/-- Default `Tool::validate` (`tool.rs` lines 136-149).  No tool in the
repository overrides it, so it is the validator of every registered tool. -/
def toolValidate (schema : ToolSchema) (call : ToolCall) : Except AgentError Unit :=
  match firstMissingRequired call.arguments schema.parameters with
  | some p => .error (.toolValidation (missingParamMsg p.name))
  | none => .ok ()

/-- A registered tool: its static schema plus its `execute` body, the latter
modelled as a function value (tools whose `execute` is irrelevant to a claim
are quantified over it). -/
structure Tool : Type where
  schema : ToolSchema
  exec : ToolCall → Except AgentError ToolResult

/-- Tool registry (`tool.rs`, `struct ToolRegistry`).  The HashMap is
modelled as an association list whose order stands for the map's internal
iteration order: unspecified, but fixed while the map is not mutated, which
is exactly what `schemas()` iteration exposes. -/
structure ToolRegistry : Type where
  tools : List (String × Tool)

/-- ToolRegistry::new. -/
def regNew : ToolRegistry := { tools := [] }

/-- HashMap::insert keyed by the schema name: last write wins, an existing
key keeps its slot. -/
def regInsertAssoc : List (String × Tool) → String → Tool → List (String × Tool)
  | [], key, t => [(key, t)]
  | (k, v) :: rest, key, t =>
    if k == key then (k, t) :: rest else (k, v) :: regInsertAssoc rest key t

/-- ToolRegistry::register. -/
def registerTool (reg : ToolRegistry) (t : Tool) : ToolRegistry :=
  { tools := regInsertAssoc reg.tools t.schema.name t }

/-- HashMap::get on the modelled registry map. -/
def assocGet : List (String × Tool) → String → Option Tool
  | [], _ => none
  | (k, v) :: rest, name => if k == name then some v else assocGet rest name

/-- ToolRegistry::get. -/
def regGet (reg : ToolRegistry) (name : String) : Option Tool :=
  assocGet reg.tools name

/-- ToolRegistry::schemas, in the registry's iteration order. -/
def regSchemas (reg : ToolRegistry) : List ToolSchema :=
  reg.tools.map (fun kv => kv.2.schema)

/-- ToolRegistry::is_empty. -/
def regIsEmpty (reg : ToolRegistry) : Bool :=
  reg.tools.isEmpty

/-- ToolRegistry::execute: look up, validate, then (only then) run the
tool's execute body. -/
def registryExecute (reg : ToolRegistry) (call : ToolCall) :
    Except AgentError ToolResult :=
  match regGet reg call.name with
  | none => .error (.toolNotFound call.name)
  | some t =>
    match toolValidate t.schema call with
    | .error e => .error e
    | .ok _ => t.exec call

/-- Replace the execute body of the tool registered under `name`, leaving
every schema untouched (used to state that a rejected call never reaches
any execute body). -/
def regUpdateExec (reg : ToolRegistry) (name : String)
    (f : ToolCall → Except AgentError ToolResult) : ToolRegistry :=
  { tools := reg.tools.map (fun kv =>
      if kv.1 == name then (kv.1, { kv.2 with exec := f }) else kv) }

/-- Concatenation of a list of strings (specification-side normal form for
the prompt-section accumulator loops). -/
def strConcatList : List String → String
  | [] => ""
  | s :: rest => s ++ strConcatList rest

/-- One parameter line of the prompt section (`tool.rs` lines 232-238). -/
def paramLine (p : ParameterSchema) : String :=
  "- `" ++ p.name ++ "` (" ++ p.paramType ++ ")" ++
    (if p.required then " (required)" else "") ++ ": " ++ p.description ++ "\n"

/-- The inner `for param in &schema.parameters` accumulator loop. -/
def paramsLoop : String → List ParameterSchema → String
  | acc, [] => acc
  | acc, p :: rest => paramsLoop (acc ++ paramLine p) rest

/-- The per-schema block pushed by one pass of the outer rendering loop. -/
def schemaSection (s : ToolSchema) : String :=
  "### " ++ s.name ++ "\n" ++ (s.description ++ "\n") ++
    (if s.parameters.isEmpty then ""
     else paramsLoop "**Parameters:**\n" s.parameters) ++ "\n"

/-- Fixed preamble of ToolRegistry::generate_prompt_section. -/
def promptHeader : String :=
  "## Available Tools\n\nYou can use the following tools by responding with a JSON block:\n\n```tool\n\x7b\"tool\": \"tool_name\", \"arguments\": \x7b\"arg\": \"value\"\x7d\x7d\n```\n\n"

/-- The outer `for schema in self.schemas()` accumulator loop. -/
def promptLoop : String → List ToolSchema → String
  | acc, [] => acc
  | acc, s :: rest => promptLoop (acc ++ schemaSection s) rest

/-- ToolRegistry::generate_prompt_section. -/
def generatePromptSection (reg : ToolRegistry) : String :=
  promptLoop promptHeader (regSchemas reg)

/-- The `expression` parameter of the built-in CalculatorTool schema. -/
def expressionParam : ParameterSchema :=
  { name := "expression", paramType := "string",
    description :=
      "Mathematical expression to evaluate (e.g., \x272 + 2\x27, \x2710 * 5\x27)",
    required := true, default := none, enumValues := none }

/-- CalculatorTool::schema (`tool.rs` lines 310-327). -/
def calculatorSchema : ToolSchema :=
  { name := "calculate", description := "Evaluate a mathematical expression",
    parameters := [expressionParam], category := some "math",
    hasSideEffects := false }

/-- CalculatorTool, with its execute body abstracted: the f64 expression
evaluator is floating-point and is never reached by the validation claims
settled here. -/
def calculatorTool (exec : ToolCall → Except AgentError ToolResult) : Tool :=
  { schema := calculatorSchema, exec := exec }

/-- Token usage statistics (`provider.rs`, `struct TokenUsage`). -/
structure TokenUsage : Type where
  promptTokens : Nat
  completionTokens : Nat
  totalTokens : Nat
  deriving DecidableEq

/-- Reason for completion finishing (`provider.rs`, `enum FinishReason`). -/
inductive FinishReason : Type
  | stop
  | length
  | toolUse
  | contentFilter
  | error
  deriving DecidableEq

/-- Response from an LLM completion (`provider.rs`, `struct Completion`). -/
structure Completion : Type where
  content : String
  model : String
  usage : Option TokenUsage := none
  truncated : Bool := false
  finishReason : Option FinishReason := none
  deriving DecidableEq

/-- Provider selection strategy (`provider.rs`, `enum ProviderStrategy`). -/
inductive ProviderStrategy : Type
  | single
  | failover
  | roundRobin
  | modelRouted
  deriving DecidableEq

/-- Multi-provider wrapper (`provider.rs`, `struct ProviderChain`),
abstracted over the provider values it holds.  The `AtomicUsize` cursor is
modelled on `Nat`: 2^64 increments are unreachable, and one selection is one
atomic `fetch_add`, so the sequential iteration below is also the linearized
behavior of concurrent callers. -/
structure ProviderChain (α : Type) : Type where
  providers : List α
  strategy : ProviderStrategy
  currentIndex : Nat

/-- ProviderChain::new. -/
def mkProviderChain (providers : List α) (strategy : ProviderStrategy) :
    ProviderChain α :=
  { providers := providers, strategy := strategy, currentIndex := 0 }

/-- ProviderChain::next_provider, returning the selected provider together
with the chain state after the call (the cursor moves only under
RoundRobin, where `fetch_add` returns the pre-increment value). -/
def nextProvider (chain : ProviderChain α) : Option α × ProviderChain α :=
  if chain.providers.isEmpty then (none, chain)
  else
    match chain.strategy with
    | .single => (chain.providers.head?, chain)
    | .roundRobin =>
      let idx := chain.currentIndex % chain.providers.length
      (chain.providers[idx]?, { chain with currentIndex := chain.currentIndex + 1 })
    | .failover | .modelRouted =>
      let idx := chain.currentIndex % chain.providers.length
      (chain.providers[idx]?, chain)

/-- Chain state after `k` successive next_provider calls with no interleaved
advance calls. -/
def afterCalls (chain : ProviderChain α) : Nat → ProviderChain α
  | 0 => chain
  | k + 1 => (nextProvider (afterCalls chain k)).2

/-- The provider returned by the k-th next_provider call (k counted from 1). -/
def kthSelection (chain : ProviderChain α) (k : Nat) : Option α :=
  (nextProvider (afterCalls chain (k - 1))).1

/-- The literal `\x7b` character (written via its code point to keep JSON
text in this file free of brace characters). -/
def braceOpen : Char := Char.ofNat 123

/-- The literal `\x7d` character. -/
def braceClose : Char := Char.ofNat 125

/-- str::find with a string pattern: first index at which the pattern
occurs.  Indices are character positions; Rust's byte offsets and these
character offsets name the same boundaries of the same text, so every slice
taken below is the same string either way. -/
def charsFind (pat : List Char) : List Char → Option Nat
  | [] => if pat.isEmpty then some 0 else none
  | c :: rest =>
    if pat.isPrefixOf (c :: rest) then some 0
    else (charsFind pat rest).map (· + 1)

/-- str::rfind with a character pattern: index of the last occurrence. -/
def charRFindIdx (c : Char) (cs : List Char) : Option Nat :=
  match charsFind [c] cs.reverse with
  | some i => some (cs.length - 1 - i)
  | none => none

/-- str::trim.  Lean's Char.isWhitespace covers the ASCII whitespace set;
exotic Unicode whitespace differs, but the trimmed text only feeds the
abstract serde parser, so no claim depends on it. -/
def rustTrim (cs : List Char) : List Char :=
  ((cs.dropWhile Char.isWhitespace).reverse.dropWhile Char.isWhitespace).reverse

/-- Opening marker of a fenced tool block (`reasoning.rs`, `tool_start`). -/
def toolStartPat : List Char := "```tool".data

/-- Closing marker of a fenced tool block (`reasoning.rs`, `tool_end`). -/
def toolEndPat : List Char := "```".data

/-- The literal key probed by the inline fallback (`reasoning.rs` line 175). -/
def toolKeyPat : List Char := "\"tool\"".data

/-- The fenced-block stage of Agent::parse_tool_call (`reasoning.rs` lines
148-166): locate the opening marker, the first closing marker after it,
parse the trimmed span via serde (`fromStr`, abstract), and fill in a fresh
uuid (`fresh`, abstract) when the parsed call has no id.  Every failure
falls through to the inline stage. -/
def fencedToolCall (fromStr : String → Option ToolCall) (fresh : String)
    (content : String) : Option ToolCall :=
  match charsFind toolStartPat content.data with
  | none => none
  | some startIdx =>
    let afterMarker := content.data.drop (startIdx + toolStartPat.length)
    match charsFind toolEndPat afterMarker with
    | none => none
    | some endIdx =>
      match fromStr (String.mk (rustTrim (afterMarker.take endIdx))) with
      | none => none
      | some call =>
        match call.id with
        | none => some { call with id := some fresh }
        | some _ => some call

/-- Agent::parse_inline_tool_call (`reasoning.rs` lines 173-189): requires
the literal key `"tool"` somewhere in the text, then parses the span from
the first opening brace to the last closing brace; any failure is silent. -/
def parseInlineToolCall (fromStr : String → Option ToolCall)
    (content : String) : Option ToolCall :=
  if (charsFind toolKeyPat content.data).isSome = false then none
  else
    match charsFind [braceOpen] content.data, charRFindIdx braceClose content.data with
    | some startIdx, some endIdx =>
      if endIdx ≤ startIdx then none
      else fromStr (String.mk ((content.data.drop startIdx).take (endIdx + 1 - startIdx)))
    | some _, none => none
    | none, _ => none

/-- Agent::parse_tool_call: fenced stage first, inline fallback only when
the fenced stage yields nothing parseable. -/
def parseToolCall (fromStr : String → Option ToolCall) (fresh : String)
    (content : String) : Option ToolCall :=
  match fencedToolCall fromStr fresh content with
  | some call => some call
  | none => parseInlineToolCall fromStr content

/-- Agent configuration (`reasoning.rs`, `struct AgentConfig`).  The
`generation: GenerationOptions` field (f32 sampling parameters) is passed
through verbatim to the provider and is absorbed into the abstract provider
function. -/
structure AgentConfig : Type where
  systemPrompt : String
  maxIterations : Nat
  injectToolDescriptions : Bool

/-- The agent together with the external effects its loop consumes:
`fromStr` is `serde_json::from_str::<ToolCall>`, `freshIds n` the uuid
generated in iteration `n`, and `provider` the `LlmProvider::complete`
trait call (a function of the messages it is shown). -/
structure AgentModel : Type where
  fromStr : String → Option ToolCall
  freshIds : Nat → String
  provider : List Message → Except AgentError Completion
  registry : ToolRegistry
  config : AgentConfig

/-- Agent::build_system_prompt. -/
def buildSystemPrompt (A : AgentModel) : String :=
  A.config.systemPrompt ++
    (if A.config.injectToolDescriptions = true ∧ regIsEmpty A.registry = false
     then "\n\n" ++ generatePromptSection A.registry
     else "")

/-- The system-prompt priming step of Agent::run (`reasoning.rs` lines
95-98): prepend a System message unless the first message already is one. -/
def primeSystem (A : AgentModel) (msgs : List Message) : List Message :=
  if msgs.head?.map Message.role = some Role.system then msgs
  else Message.system (buildSystemPrompt A) :: msgs

/-- Agent::execute_tool (`reasoning.rs` lines 192-208): registry dispatch
with every error caught and turned into a failed ToolResult carrying the
error text; a successful result gets the call's id. -/
def executeToolAgent (reg : ToolRegistry) (call : ToolCall) : ToolResult :=
  match registryExecute reg call with
  | .ok result => { result with id := call.id }
  | .error e =>
    { name := call.name, id := call.id, success := false,
      output := "Error: " ++ renderAgentError e, data := none }

/-- Agent::format_tool_result. -/
def formatToolResult (result : ToolResult) : String :=
  if result.success then
    "[Tool \x27" ++ result.name ++ "\x27 returned]\n" ++ result.output
  else
    "[Tool \x27" ++ result.name ++ "\x27 failed]\n" ++ result.output

/-- The `loop` of Agent::run (`reasoning.rs` lines 100-137), entered with
the iteration counter at `iterations`; returns the loop's result together
with the conversation messages at that point (the conversation is mutated
in place in Rust, so it survives an error return unchanged). -/
def agentStepRec (A : AgentModel) (iterations : Nat) (msgs : List Message) :
    Except AgentError String × List Message :=
  let it := iterations + 1
  if h : it > A.config.maxIterations then
    (.error (.maxIterations A.config.maxIterations), msgs)
  else
    match A.provider msgs with
    | .error e => (.error e, msgs)
    | .ok completion =>
      let msgs1 := msgs ++ [Message.assistant completion.content]
      match parseToolCall A.fromStr (A.freshIds it) completion.content with
      | some call =>
        let result := executeToolAgent A.registry call
        agentStepRec A it (msgs1 ++ [Message.toolMsg (formatToolResult result) call.id])
      | none => (.ok completion.content, msgs1)
termination_by A.config.maxIterations + 1 - iterations
decreasing_by omega

/-- Agent::run: prime the system prompt, then run the loop from iteration
counter 0. -/
def agentRun (A : AgentModel) (msgs : List Message) :
    Except AgentError String × List Message :=
  agentStepRec A 0 (primeSystem A msgs)

/- Concrete instances used to exhibit the hypotheses of the claim theorems
on explicit inputs. -/

/-- A leading system message for a sample conversation. -/
def sysMsgW : Message := Message.system "sys"

/-- Sample conversation over budget: three messages, budget zero. -/
def convW : Conversation :=
  { messages := [sysMsgW, Message.user "old history", Message.user "latest"],
    maxContextTokens := 0 }

/-- Message list of `convW` (sample input of the truncation-step claim). -/
def msgsBeforeW : List Message :=
  [sysMsgW, Message.user "old history", Message.user "latest"]

/-- The list after one truncation pass removes the earliest non-System
message of `msgsBeforeW`. -/
def msgsAfterW : List Message :=
  [sysMsgW, Message.user "latest"]

/-- A stub execute body for the calculator (never invoked by the claims). -/
def calcStubExec : ToolCall → Except AgentError ToolResult :=
  fun _ => .error (.toolExecution "unreachable")

/-- A registry holding the built-in calculator. -/
def calcRegistryW : ToolRegistry :=
  registerTool regNew (calculatorTool calcStubExec)

/-- The call `\x7btool: "calculate", arguments: \x7b\x7d\x7d`. -/
def calcEmptyCallW : ToolCall :=
  { name := "calculate", arguments := [], id := none }

/-- Raw model text carrying only an inline JSON tool call (no fenced
block): `\x7b"tool": "nope"\x7d`. -/
def inlineCallText : String := "\x7b\"tool\": \"nope\"\x7d"

/-- The tool call the sample serde parser reads from `inlineCallText`;
its id is absent. -/
def nopeCallW : ToolCall := { name := "nope", arguments := [], id := none }

/-- A sample serde parser: recognizes exactly `inlineCallText`. -/
def fromStrW : String → Option ToolCall :=
  fun s => if s = inlineCallText then some nopeCallW else none

/-- A completion whose text is exactly the inline tool call. -/
def compToolW : Completion := { content := inlineCallText, model := "llama3.2" }

/-- A completion with plain prose and no tool call. -/
def compHelloW : Completion := { content := "Hello there", model := "llama3.2" }

/-- Agent whose provider always answers with an inline tool call naming an
unregistered tool; two iterations allowed. -/
def agentMaxW : AgentModel :=
  { fromStr := fromStrW, freshIds := fun _ => "uuid-0",
    provider := fun _ => .ok compToolW, registry := regNew,
    config := { systemPrompt := "sys", maxIterations := 2,
                injectToolDescriptions := false } }

/-- Agent like `agentMaxW` but with ten iterations allowed (used for the
single-step claims). -/
def agentToolW : AgentModel :=
  { fromStr := fromStrW, freshIds := fun _ => "uuid-0",
    provider := fun _ => .ok compToolW, registry := regNew,
    config := { systemPrompt := "sys", maxIterations := 10,
                injectToolDescriptions := false } }

/-- Agent whose provider answers plain prose and whose serde parser never
succeeds. -/
def agentPlainW : AgentModel :=
  { fromStr := fun _ => none, freshIds := fun _ => "uuid-0",
    provider := fun _ => .ok compHelloW, registry := regNew,
    config := { systemPrompt := "sys", maxIterations := 10,
                injectToolDescriptions := false } }

/-- A user message opening the sample conversations. -/
def userHiW : Message := Message.user "hi"

/-- A fresh three-provider chain under RoundRobin (providers abstracted to
their registration indices). -/
def chainW : ProviderChain Nat := mkProviderChain [10, 20, 30] .roundRobin

/-- A parameterless schema shared by the two prompt-stability registries. -/
def echoSchemaW : ToolSchema :=
  { name := "echo", description := "Echo a value", parameters := [],
    category := none, hasSideEffects := false }

/-- First registry: `echo` with one execute body. -/
def regStableW1 : ToolRegistry :=
  registerTool regNew
    { schema := echoSchemaW, exec := fun _ => .error (.toolExecution "stub one") }

/-- Second registry: `echo` with a different execute body but the same
schema. -/
def regStableW2 : ToolRegistry :=
  registerTool regNew
    { schema := echoSchemaW,
      exec := fun _ =>
        .ok { name := "echo", id := none, success := true, output := "ok",
              data := none } }

/- Helper lemmas (shared). -/

theorem strAppend_assoc (a b c : String) : a ++ b ++ c = a ++ (b ++ c) := by
  apply String.ext
  simp [String.data_append, List.append_assoc]

theorem promptLoop_eq (l : List ToolSchema) :
    ∀ acc : String, promptLoop acc l = acc ++ strConcatList (l.map schemaSection) := by
  induction l with
  | nil =>
    intro acc
    simp [promptLoop, strConcatList, String.append_empty]
  | cons s rest ih =>
    intro acc
    simp only [promptLoop, List.map_cons, strConcatList]
    rw [ih, strAppend_assoc]

/-- C8: Conversation::estimate_tokens equals the sum over messages of
content byte length / 4 plus the fixed per-message overhead of 4, it is a
function of the messages alone, and pushing a message never decreases it. -/
theorem estimate_tokens_sum_monotone (c : Conversation) (m : Message) :
    c.estimateTokens =
      (c.messages.map (fun x => x.content.utf8ByteSize / 4 + 4)).sum ∧
    (c.push m).estimateTokens = c.estimateTokens + m.estimateTokens ∧
    c.estimateTokens ≤ (c.push m).estimateTokens := by
  refine ⟨rfl, ?_, ?_⟩
  · simp [Conversation.push, Conversation.estimateTokens, conversationEstimateL,
      List.map_append, List.sum_append]
  · simp [Conversation.push, Conversation.estimateTokens, conversationEstimateL,
      List.map_append, List.sum_append]

/-- C7: generate_prompt_section is a function of the schema sequence alone
(two calls on an unchanged registry render identically), and its output is
the fixed header followed by one block per registered tool in the
registry's stable iteration order. -/
theorem prompt_section_stable (r1 r2 : ToolRegistry)
    (h : regSchemas r1 = regSchemas r2) :
    generatePromptSection r1 = generatePromptSection r2 ∧
    generatePromptSection r1 =
      promptHeader ++ strConcatList ((regSchemas r1).map schemaSection) := by
  constructor
  · unfold generatePromptSection
    rw [h]
  · unfold generatePromptSection
    rw [promptLoop_eq]

/-- C7 witness: two registries carrying the same schema with different
execute bodies render the same prompt section. -/
theorem prompt_section_stable_witness :
    generatePromptSection regStableW1 = generatePromptSection regStableW2 ∧
    generatePromptSection regStableW1 =
      promptHeader ++ strConcatList ((regSchemas regStableW1).map schemaSection) :=
  prompt_section_stable regStableW1 regStableW2 rfl

theorem afterCalls_roundRobin (ps : List α) (hne : ps ≠ []) (k : Nat) :
    afterCalls (mkProviderChain ps .roundRobin) k =
      { providers := ps, strategy := .roundRobin, currentIndex := k } := by
  have hemp : ps.isEmpty = false := by
    cases ps with
    | nil => exact absurd rfl hne
    | cons a l => rfl
  induction k with
  | zero => rfl
  | succ k ih =>
    simp [afterCalls, ih, nextProvider, hemp]

/-- C6: on a freshly constructed chain under RoundRobin, the k-th
next_provider call (k from 1, no interleaved advance) returns the provider
at index (k-1) mod N, and some provider is always returned. -/
theorem round_robin_kth (ps : List α) (k : Nat) (hne : ps ≠ []) (hk : 1 ≤ k) :
    kthSelection (mkProviderChain ps .roundRobin) k =
      ps[(k - 1) % ps.length]? ∧
    (kthSelection (mkProviderChain ps .roundRobin) k).isSome = true := by
  have hlen : 0 < ps.length := List.length_pos.mpr hne
  have hemp : ps.isEmpty = false := by
    cases ps with
    | nil => exact absurd rfl hne
    | cons a l => rfl
  have h1 : kthSelection (mkProviderChain ps .roundRobin) k =
      ps[(k - 1) % ps.length]? := by
    unfold kthSelection
    rw [afterCalls_roundRobin ps hne (k - 1)]
    simp [nextProvider, hemp]
  refine ⟨h1, ?_⟩
  rw [h1, List.getElem?_eq_getElem (Nat.mod_lt _ hlen)]
  rfl

/-- C6 witness: three providers under RoundRobin are visited in
registration order 0,1,2 and the fourth selection wraps to 0. -/
theorem round_robin_kth_witness :
    kthSelection chainW 1 = some 10 ∧ kthSelection chainW 2 = some 20 ∧
    kthSelection chainW 3 = some 30 ∧ kthSelection chainW 4 = some 10 := by
  refine ⟨?_, ?_, ?_, ?_⟩
  · exact (round_robin_kth [10, 20, 30] 1 (by decide) (by decide)).1.trans (by decide)
  · exact (round_robin_kth [10, 20, 30] 2 (by decide) (by decide)).1.trans (by decide)
  · exact (round_robin_kth [10, 20, 30] 3 (by decide) (by decide)).1.trans (by decide)
  · exact (round_robin_kth [10, 20, 30] 4 (by decide) (by decide)).1.trans (by decide)

theorem truncateStep_inv (maxTok : Nat) (msgs next : List Message)
    (h : truncateStep maxTok msgs = some next) :
    ∃ pos, firstNonSystemIdx msgs = some pos ∧ pos < msgs.length - 1 ∧
      next = removeAt msgs pos ∧ conversationEstimateL msgs > maxTok ∧
      2 < msgs.length := by
  unfold truncateStep at h
  split at h
  · rename_i hguard
    split at h
    · rename_i pos hf
      split at h
      · rename_i hp
        exact ⟨pos, hf, hp, by simpa using h.symm, hguard.1, hguard.2⟩
      · exact absurd h (by simp)
    · exact absurd h (by simp)
  · exact absurd h (by simp)

theorem firstNonSystemIdx_decomp :
    ∀ (msgs : List Message) (pos : Nat), firstNonSystemIdx msgs = some pos →
    ∃ pre x suf, msgs = pre ++ x :: suf ∧ pre.length = pos ∧
      (∀ m ∈ pre, m.role = Role.system) ∧ x.role ≠ Role.system ∧
      removeAt msgs pos = pre ++ suf := by
  intro msgs
  induction msgs with
  | nil =>
    intro pos h
    exact absurd h (by simp [firstNonSystemIdx])
  | cons m rest ih =>
    intro pos h
    unfold firstNonSystemIdx at h
    split at h
    · rename_i hrole
      have hpos : pos = 0 := by simpa using h.symm
      subst hpos
      exact ⟨[], m, rest, rfl, rfl, by simp, hrole, by simp [removeAt]⟩
    · rename_i hrole
      obtain ⟨posr, hpr, rfl⟩ :
          ∃ p, firstNonSystemIdx rest = some p ∧ pos = p + 1 := by
        cases hf : firstNonSystemIdx rest with
        | none => rw [hf] at h; exact absurd h (by simp)
        | some p => rw [hf] at h; exact ⟨p, rfl, by simpa using h.symm⟩
      obtain ⟨pre, x, suf, hdec, hlen, hpre, hx, hrem⟩ := ih posr hpr
      refine ⟨m :: pre, x, suf, by simp [hdec], by simp [hlen], ?_, hx, ?_⟩
      · intro mm hmm
        rcases List.mem_cons.mp hmm with hmm | hmm
        · subst hmm
          exact not_not.mp hrole
        · exact hpre mm hmm
      · simp only [removeAt, List.take_succ_cons, List.drop_succ_cons,
          List.cons_append]
        rw [show rest.take posr ++ rest.drop (posr + 1) = removeAt rest posr
          from rfl, hrem]

theorem getLast?_ne_none (l : List α) (h : l ≠ []) : l.getLast? ≠ none := by
  induction l with
  | nil => exact absurd rfl h
  | cons a l ih =>
    cases l with
    | nil => simp
    | cons b bs =>
      rw [List.getLast?_cons_cons]
      exact ih (by simp)

theorem getLast?_append_right (l1 l2 : List α) (h : l2 ≠ []) :
    (l1 ++ l2).getLast? = l2.getLast? := by
  rw [List.getLast?_append]
  cases hc : l2.getLast? with
  | none => exact absurd hc (getLast?_ne_none l2 h)
  | some z => rfl

theorem truncateStep_props (maxTok : Nat) (msgs next : List Message)
    (h : truncateStep maxTok msgs = some next) :
    List.Sublist next msgs ∧
    next.filter (fun m => m.role == Role.system) =
      msgs.filter (fun m => m.role == Role.system) ∧
    next.getLast? = msgs.getLast? ∧
    (∀ m0, msgs.head? = some m0 → m0.role = Role.system →
      next.head? = some m0) := by
  obtain ⟨pos, hf, hp, rfl, hover, hlen⟩ := truncateStep_inv maxTok msgs next h
  obtain ⟨pre, x, suf, hdec, hplen, hpre, hx, hrem⟩ :=
    firstNonSystemIdx_decomp msgs pos hf
  have hsuf : suf ≠ [] := by
    intro hempty
    subst hempty
    rw [hdec] at hp
    simp at hp
    omega
  rw [hrem, hdec]
  have hxfalse : (x.role == Role.system) = false := by
    simpa using hx
  refine ⟨?_, ?_, ?_, ?_⟩
  · exact List.Sublist.append_left (List.sublist_cons_self x suf) pre
  · rw [List.filter_append, List.filter_append, List.filter_cons, hxfalse]
    simp
  · rw [getLast?_append_right pre suf hsuf,
      getLast?_append_right pre (x :: suf) (by simp)]
    cases suf with
    | nil => exact absurd rfl hsuf
    | cons y ys => rw [List.getLast?_cons_cons]
  · intro m0 hhead hsys
    cases pre with
    | nil =>
      simp only [List.nil_append, List.head?_cons, Option.some.injEq] at hhead
      subst hhead
      exact absurd hsys hx
    | cons p pres =>
      simpa using hhead

theorem truncateLoop_of_step_none (maxTok : Nat) (msgs : List Message)
    (h : truncateStep maxTok msgs = none) :
    truncateLoop maxTok msgs = msgs := by
  rw [truncateLoop]
  split
  · rename_i next h2
    rw [h] at h2
    exact absurd h2 (by simp)
  · rfl

theorem truncateLoop_of_step_some (maxTok : Nat) (msgs next : List Message)
    (h : truncateStep maxTok msgs = some next) :
    truncateLoop maxTok msgs = truncateLoop maxTok next := by
  conv_lhs => rw [truncateLoop]
  split
  · rename_i n h2
    have hn : n = next := by
      have := h.symm.trans h2
      simpa using this.symm
    rw [hn]
  · rename_i h2
    rw [h] at h2
    exact absurd h2 (by simp)

theorem truncateLoop_props (maxTok : Nat) :
    ∀ (n : Nat) (msgs : List Message), msgs.length ≤ n →
    List.Sublist (truncateLoop maxTok msgs) msgs ∧
    (truncateLoop maxTok msgs).filter (fun m => m.role == Role.system) =
      msgs.filter (fun m => m.role == Role.system) ∧
    (truncateLoop maxTok msgs).getLast? = msgs.getLast? ∧
    (∀ m0, msgs.head? = some m0 → m0.role = Role.system →
      (truncateLoop maxTok msgs).head? = some m0) := by
  intro n
  induction n with
  | zero =>
    intro msgs hlen
    have hnil : msgs = [] := by
      cases msgs with
      | nil => rfl
      | cons a l => simp at hlen
    subst hnil
    have hstep : truncateStep maxTok [] = none := by
      unfold truncateStep
      rw [if_neg]
      intro hc
      simp at hc
    rw [truncateLoop_of_step_none maxTok [] hstep]
    exact ⟨List.Sublist.refl _, rfl, rfl, fun m0 h1 _ => h1⟩
  | succ n ih =>
    intro msgs hlen
    cases hstep : truncateStep maxTok msgs with
    | none =>
      rw [truncateLoop_of_step_none maxTok msgs hstep]
      exact ⟨List.Sublist.refl _, rfl, rfl, fun m0 h1 _ => h1⟩
    | some next =>
      have hstepprops := truncateStep_props maxTok msgs next hstep
      obtain ⟨pos, hf, hp, hnext, hover, hmlen⟩ :=
        truncateStep_inv maxTok msgs next hstep
      have hnlen : next.length ≤ n := by
        subst hnext
        simp only [removeAt, List.length_append, List.length_take,
          List.length_drop]
        omega
      obtain ⟨ihsub, ihfil, ihlast, ihhead⟩ := ih next hnlen
      obtain ⟨ssub, sfil, slast, shead⟩ := hstepprops
      rw [truncateLoop_of_step_some maxTok msgs next hstep]
      refine ⟨ihsub.trans ssub, ihfil.trans sfil, ihlast.trans slast, ?_⟩
      intro m0 h1 h2
      exact ihhead m0 (shead m0 h1 h2) h2

/-- C2: truncate_to_fit only ever deletes messages (the result is a sublist
in order), deletes no System message (so the leading System message in
particular survives, still in front), and never deletes the final message
(the last entry is unchanged).  Hence every removed message is a non-System
message other than the last one. -/
theorem truncate_to_fit_preserves (c : Conversation) :
    List.Sublist c.truncateToFit.messages c.messages ∧
    c.truncateToFit.messages.filter (fun m => m.role == Role.system) =
      c.messages.filter (fun m => m.role == Role.system) ∧
    c.truncateToFit.messages.getLast? = c.messages.getLast? ∧
    (∀ m0, c.messages.head? = some m0 → m0.role = Role.system →
      c.truncateToFit.messages.head? = some m0) := by
  unfold Conversation.truncateToFit
  exact truncateLoop_props c.maxContextTokens c.messages.length c.messages le_rfl

/-- C2 witness: an over-budget conversation keeps its leading System
message in front and its final message last after truncation. -/
theorem truncate_to_fit_preserves_witness :
    (Conversation.truncateToFit convW).messages.getLast? =
      some (Message.user "latest") ∧
    (Conversation.truncateToFit convW).messages.head? = some sysMsgW := by
  obtain ⟨-, -, hlast, hhead⟩ := truncate_to_fit_preserves convW
  exact ⟨hlast.trans (by rfl), hhead sysMsgW rfl rfl⟩

/-- C10: every pass of the truncate_to_fit loop that continues removes
exactly one message, so the count strictly decreases; the guard keeps it
above 2, so after the pass at least 2 messages remain and the loop reaches
its exit in at most length-many passes. -/
theorem truncate_step_terminating (maxTok : Nat) (msgs next : List Message)
    (h : truncateStep maxTok msgs = some next) :
    next.length + 1 = msgs.length ∧ 2 < msgs.length ∧ 2 ≤ next.length ∧
    truncateLoop maxTok msgs = truncateLoop maxTok next := by
  obtain ⟨pos, hf, hp, hnext, hover, hmlen⟩ := truncateStep_inv maxTok msgs next h
  have hlen : next.length + 1 = msgs.length := by
    subst hnext
    simp only [removeAt, List.length_append, List.length_take, List.length_drop]
    omega
  exact ⟨hlen, hmlen, by omega, truncateLoop_of_step_some maxTok msgs next h⟩

/-- C10 witness: a concrete over-budget three-message conversation takes
one strictly-decreasing pass. -/
theorem truncate_step_terminating_witness :
    msgsAfterW.length + 1 = msgsBeforeW.length ∧ 2 < msgsBeforeW.length ∧
    2 ≤ msgsAfterW.length ∧
    truncateLoop 0 msgsBeforeW = truncateLoop 0 msgsAfterW :=
  truncate_step_terminating 0 msgsBeforeW msgsAfterW rfl

theorem firstMissingRequired_of_exists (args : List (String × Json)) :
    ∀ ps : List ParameterSchema,
    (∃ p, p ∈ ps ∧ p.required = true ∧ argsContainKey args p.name = false) →
    ∃ q, firstMissingRequired args ps = some q := by
  intro ps
  induction ps with
  | nil =>
    rintro ⟨p, hp, -, -⟩
    exact absurd hp (by simp)
  | cons p rest ih =>
    rintro ⟨w, hw, hreq, hmiss⟩
    unfold firstMissingRequired
    split
    · exact ⟨p, rfl⟩
    · rename_i hcond
      rcases List.mem_cons.mp hw with hw | hw
      · subst hw
        exact absurd ⟨hreq, hmiss⟩ hcond
      · exact ih ⟨w, hw, hreq, hmiss⟩

theorem firstMissingRequired_props (args : List (String × Json)) :
    ∀ (ps : List ParameterSchema) (q : ParameterSchema),
    firstMissingRequired args ps = some q →
    q ∈ ps ∧ q.required = true ∧ argsContainKey args q.name = false := by
  intro ps
  induction ps with
  | nil =>
    intro q h
    exact absurd h (by simp [firstMissingRequired])
  | cons p rest ih =>
    intro q h
    unfold firstMissingRequired at h
    split at h
    · rename_i hcond
      have hq : q = p := by simpa using h.symm
      subst hq
      exact ⟨by simp, hcond.1, hcond.2⟩
    · obtain ⟨hmem, hreq, hmiss⟩ := ih q h
      exact ⟨by simp [hmem], hreq, hmiss⟩

theorem assocGet_update_exec (name : String)
    (f : ToolCall → Except AgentError ToolResult) :
    ∀ (l : List (String × Tool)) (t : Tool), assocGet l name = some t →
    assocGet (l.map (fun kv =>
      if kv.1 == name then (kv.1, { kv.2 with exec := f }) else kv)) name =
      some { t with exec := f } := by
  intro l
  induction l with
  | nil =>
    intro t h
    simp [assocGet] at h
  | cons kv rest ih =>
    intro t h
    obtain ⟨k, v⟩ := kv
    by_cases hk : (k == name) = true
    · unfold assocGet at h
      rw [if_pos hk] at h
      have hv : v = t := by simpa using h
      subst hv
      simp only [List.map_cons, if_pos hk]
      unfold assocGet
      rw [if_pos hk]
    · have hkb : (k == name) = false := by simpa using hk
      unfold assocGet at h
      rw [if_neg (by simp [hkb])] at h
      simp only [List.map_cons]
      rw [if_neg (by simp [hkb])]
      unfold assocGet
      rw [if_neg (by simp [hkb])]
      exact ih t h

/-- C3: when a call's arguments lack a required parameter of the registered
tool's schema, ToolRegistry::execute fails with a ToolValidation error
naming a missing required parameter, and the outcome is the same for every
possible execute body of that tool — the tool's execute is never invoked.
The witness instantiates this to the built-in calculate tool called with
empty arguments, where the named parameter is "expression". -/
theorem registry_missing_required (reg : ToolRegistry) (t : Tool)
    (call : ToolCall) (hget : regGet reg call.name = some t)
    (hmiss : ∃ p, p ∈ t.schema.parameters ∧ p.required = true ∧
      argsContainKey call.arguments p.name = false) :
    ∃ p, p ∈ t.schema.parameters ∧ p.required = true ∧
      argsContainKey call.arguments p.name = false ∧
      registryExecute reg call = .error (.toolValidation (missingParamMsg p.name)) ∧
      ∀ f, registryExecute (regUpdateExec reg call.name f) call =
        .error (.toolValidation (missingParamMsg p.name)) := by
  obtain ⟨q, hq⟩ :=
    firstMissingRequired_of_exists call.arguments t.schema.parameters hmiss
  obtain ⟨hmem, hreq, hnotin⟩ :=
    firstMissingRequired_props call.arguments t.schema.parameters q hq
  have hval : toolValidate t.schema call =
      .error (.toolValidation (missingParamMsg q.name)) := by
    unfold toolValidate
    rw [hq]
  refine ⟨q, hmem, hreq, hnotin, ?_, ?_⟩
  · unfold registryExecute
    rw [hget]
    show (match toolValidate t.schema call with
          | Except.error e => Except.error e
          | Except.ok _ => t.exec call) =
      Except.error (.toolValidation (missingParamMsg q.name))
    rw [hval]
  · intro f
    have hget2 : regGet (regUpdateExec reg call.name f) call.name =
        some { t with exec := f } := by
      unfold regGet regUpdateExec at *
      exact assocGet_update_exec call.name f reg.tools t hget
    unfold registryExecute
    rw [hget2]
    show (match toolValidate t.schema call with
          | Except.error e => Except.error e
          | Except.ok _ => ({ t with exec := f } : Tool).exec call) =
      Except.error (.toolValidation (missingParamMsg q.name))
    rw [hval]

/-- C3 witness: the calculate tool with empty arguments is rejected with a
ToolValidation error naming "expression" before any execute body runs. -/
theorem registry_missing_required_witness :
    registryExecute calcRegistryW calcEmptyCallW =
      .error (.toolValidation (missingParamMsg "expression")) := by
  obtain ⟨p, hmem, -, -, heq, -⟩ :=
    registry_missing_required calcRegistryW (calculatorTool calcStubExec)
      calcEmptyCallW rfl ⟨expressionParam, by simp [calculatorTool, calculatorSchema], rfl, rfl⟩
  have hp : p = expressionParam := by
    simpa [calculatorTool, calculatorSchema] using hmem
  subst hp
  exact heq

/-- C9: when the fenced stage of Agent::parse_tool_call yields nothing
parseable and the inline fallback parses a call without an id, the parsed
call comes back with id = none — a fresh id is minted only on the
fenced-block path, never on the fallback path. -/
theorem inline_fallback_keeps_id (fromStr : String → Option ToolCall)
    (fresh content : String) (call : ToolCall)
    (hfenced : fencedToolCall fromStr fresh content = none)
    (hinline : parseInlineToolCall fromStr content = some call)
    (hid : call.id = none) :
    parseToolCall fromStr fresh content = some call ∧ call.id = none := by
  constructor
  · unfold parseToolCall
    rw [hfenced]
    exact hinline
  · exact hid

/-- C9 witness: an inline-only tool call without id parses to a call whose
id stays none regardless of the fresh uuid on offer. -/
theorem inline_fallback_keeps_id_witness :
    parseToolCall fromStrW "uuid-unused" inlineCallText = some nopeCallW ∧
    nopeCallW.id = none :=
  inline_fallback_keeps_id fromStrW "uuid-unused" inlineCallText nopeCallW
    rfl rfl rfl

/-- C5: if the first provider completion parses to no tool call, run
returns after exactly one iteration with the raw completion text, and the
conversation gains exactly one Assistant message carrying that text. -/
theorem run_returns_on_no_tool_call (A : AgentModel) (msgs : List Message)
    (c : Completion)
    (hmax : 1 ≤ A.config.maxIterations)
    (hprov : A.provider (primeSystem A msgs) = .ok c)
    (hparse : parseToolCall A.fromStr (A.freshIds 1) c.content = none) :
    agentRun A msgs =
      (.ok c.content, primeSystem A msgs ++ [Message.assistant c.content]) := by
  unfold agentRun
  rw [agentStepRec]
  rw [dif_neg (by omega)]
  rw [hprov]
  show (match parseToolCall A.fromStr (A.freshIds (0 + 1)) c.content with
        | some call =>
          agentStepRec A (0 + 1)
            ((primeSystem A msgs ++ [Message.assistant c.content]) ++
              [Message.toolMsg
                (formatToolResult (executeToolAgent A.registry call)) call.id])
        | none =>
          (.ok c.content, primeSystem A msgs ++ [Message.assistant c.content])) =
      (.ok c.content, primeSystem A msgs ++ [Message.assistant c.content])
  rw [show (0 + 1) = 1 from rfl, hparse]

/-- C5 witness: a plain-prose completion ends the run in one iteration. -/
theorem run_returns_on_no_tool_call_witness :
    agentRun agentPlainW [userHiW] =
      (.ok compHelloW.content,
        primeSystem agentPlainW [userHiW] ++
          [Message.assistant compHelloW.content]) :=
  run_returns_on_no_tool_call agentPlainW [userHiW] compHelloW
    (by decide) rfl rfl

/-- C4: inside a run iteration, any error from registry dispatch or tool
execution is caught and becomes a failed ToolResult whose output carries
the error text; the loop appends it as a Tool-role message and continues
with the next iteration instead of failing. -/
theorem tool_error_recovered (A : AgentModel) (call : ToolCall)
    (e : AgentError) (k : Nat) (msgs : List Message) (c : Completion)
    (herr : registryExecute A.registry call = .error e)
    (hit : k + 1 ≤ A.config.maxIterations)
    (hprov : A.provider msgs = .ok c)
    (hparse : parseToolCall A.fromStr (A.freshIds (k + 1)) c.content = some call) :
    executeToolAgent A.registry call =
      { name := call.name, id := call.id, success := false,
        output := "Error: " ++ renderAgentError e, data := none } ∧
    formatToolResult (executeToolAgent A.registry call) =
      "[Tool \x27" ++ call.name ++ "\x27 failed]\n" ++
        ("Error: " ++ renderAgentError e) ∧
    agentStepRec A k msgs =
      agentStepRec A (k + 1)
        ((msgs ++ [Message.assistant c.content]) ++
          [Message.toolMsg
            (formatToolResult (executeToolAgent A.registry call)) call.id]) := by
  have hexec : executeToolAgent A.registry call =
      { name := call.name, id := call.id, success := false,
        output := "Error: " ++ renderAgentError e, data := none } := by
    unfold executeToolAgent
    rw [herr]
  refine ⟨hexec, ?_, ?_⟩
  · rw [hexec]
    rfl
  · conv_lhs => rw [agentStepRec]
    rw [dif_neg (by omega)]
    rw [hprov]
    show (match parseToolCall A.fromStr (A.freshIds (k + 1)) c.content with
          | some call =>
            agentStepRec A (k + 1)
              ((msgs ++ [Message.assistant c.content]) ++
                [Message.toolMsg
                  (formatToolResult (executeToolAgent A.registry call)) call.id])
          | none => (.ok c.content, msgs ++ [Message.assistant c.content])) =
        agentStepRec A (k + 1)
          ((msgs ++ [Message.assistant c.content]) ++
            [Message.toolMsg
              (formatToolResult (executeToolAgent A.registry call)) call.id])
    rw [hparse]

/-- C4 witness: a call naming an unregistered tool is converted into a
failed Tool message and the loop moves on to iteration 2. -/
theorem tool_error_recovered_witness :
    executeToolAgent agentToolW.registry nopeCallW =
      { name := "nope", id := none, success := false,
        output := "Error: " ++ renderAgentError (.toolNotFound "nope"),
        data := none } ∧
    formatToolResult (executeToolAgent agentToolW.registry nopeCallW) =
      "[Tool \x27" ++ "nope" ++ "\x27 failed]\n" ++
        ("Error: " ++ renderAgentError (.toolNotFound "nope")) ∧
    agentStepRec agentToolW 0 [] =
      agentStepRec agentToolW 1
        (([] ++ [Message.assistant compToolW.content]) ++
          [Message.toolMsg
            (formatToolResult (executeToolAgent agentToolW.registry nopeCallW))
            nopeCallW.id]) :=
  tool_error_recovered agentToolW nopeCallW (.toolNotFound "nope") 0 []
    compToolW rfl (by decide) rfl rfl

theorem countRole_append (r : Role) (l1 l2 : List Message) :
    countRole r (l1 ++ l2) = countRole r l1 + countRole r l2 := by
  simp [countRole, List.filter_append]

theorem toolMsg_role (content : String) (oid : Option String) :
    (Message.toolMsg content oid).role = Role.tool := by
  cases oid <;> rfl

theorem countRole_assistant_pair (s content : String) (oid : Option String) :
    countRole Role.assistant [Message.assistant s, Message.toolMsg content oid] = 1 := by
  simp [countRole, List.filter_cons, Message.assistant, Message.mkMsg,
    toolMsg_role]

theorem countRole_tool_pair (s content : String) (oid : Option String) :
    countRole Role.tool [Message.assistant s, Message.toolMsg content oid] = 1 := by
  simp [countRole, List.filter_cons, Message.assistant, Message.mkMsg,
    toolMsg_role]

theorem countRole_primeSystem (A : AgentModel) (msgs : List Message) (r : Role)
    (hr : r ≠ Role.system) :
    countRole r (primeSystem A msgs) = countRole r msgs := by
  unfold primeSystem
  split
  · rfl
  · have hb : ((Message.system (buildSystemPrompt A)).role == r) = false := by
      simp only [Message.system, Message.mkMsg, beq_eq_false_iff_ne, ne_eq]
      exact fun h => hr h.symm
    simp [countRole, List.filter_cons, hb]

theorem agentStepRec_exhausts (A : AgentModel)
    (hprov : ∀ m, ∃ c, A.provider m = .ok c)
    (hparse : ∀ m c s, A.provider m = .ok c →
      parseToolCall A.fromStr s c.content ≠ none) :
    ∀ (d k : Nat) (msgs : List Message),
      A.config.maxIterations - k = d → k ≤ A.config.maxIterations →
      ∃ app, agentStepRec A k msgs =
          (.error (.maxIterations A.config.maxIterations), msgs ++ app) ∧
        countRole Role.assistant app = d ∧ countRole Role.tool app = d := by
  intro d
  induction d with
  | zero =>
    intro k msgs hd hk
    have hkN : k = A.config.maxIterations := by omega
    subst hkN
    refine ⟨[], ?_, rfl, rfl⟩
    rw [agentStepRec]
    rw [dif_pos (by omega)]
    simp
  | succ d ih =>
    intro k msgs hd hk
    obtain ⟨c, hc⟩ := hprov msgs
    have hp := hparse msgs c (A.freshIds (k + 1)) hc
    obtain ⟨call, hcall⟩ : ∃ call,
        parseToolCall A.fromStr (A.freshIds (k + 1)) c.content = some call := by
      cases hr : parseToolCall A.fromStr (A.freshIds (k + 1)) c.content with
      | none => exact absurd hr hp
      | some call => exact ⟨call, rfl⟩
    obtain ⟨app, happ, hca, hct⟩ := ih (k + 1)
      ((msgs ++ [Message.assistant c.content]) ++
        [Message.toolMsg
          (formatToolResult (executeToolAgent A.registry call)) call.id])
      (by omega) (by omega)
    refine ⟨[Message.assistant c.content,
      Message.toolMsg (formatToolResult (executeToolAgent A.registry call))
        call.id] ++ app, ?_, ?_, ?_⟩
    · conv_lhs => rw [agentStepRec]
      rw [dif_neg (by omega)]
      rw [hc]
      show (match parseToolCall A.fromStr (A.freshIds (k + 1)) c.content with
            | some call =>
              agentStepRec A (k + 1)
                ((msgs ++ [Message.assistant c.content]) ++
                  [Message.toolMsg
                    (formatToolResult (executeToolAgent A.registry call)) call.id])
            | none => (.ok c.content, msgs ++ [Message.assistant c.content])) = _
      rw [hcall]
      show agentStepRec A (k + 1)
          ((msgs ++ [Message.assistant c.content]) ++
            [Message.toolMsg
              (formatToolResult (executeToolAgent A.registry call)) call.id]) = _
      rw [happ]
      simp [List.append_assoc]
    · rw [countRole_append, countRole_assistant_pair, hca]
      omega
    · rw [countRole_append, countRole_tool_pair, hct]
      omega

/-- C1: with max_iterations = N and a provider whose every completion
parses to a tool call, run fails with MaxIterations(N); the primed initial
conversation survives as a prefix (nothing appended during the run is
rolled back) and, when the initial conversation had no Assistant or Tool
messages, it now holds exactly N Assistant and N Tool messages (plus the
optional leading System message added by priming). -/
theorem run_max_iterations (A : AgentModel) (msgs : List Message) (N : Nat)
    (hN : A.config.maxIterations = N) (hN1 : 1 ≤ N)
    (hprov : ∀ m, ∃ c, A.provider m = .ok c)
    (hparse : ∀ m c s, A.provider m = .ok c →
      parseToolCall A.fromStr s c.content ≠ none)
    (hassistant : countRole Role.assistant msgs = 0)
    (htool : countRole Role.tool msgs = 0) :
    (agentRun A msgs).1 = .error (.maxIterations N) ∧
    (∃ appended, (agentRun A msgs).2 = primeSystem A msgs ++ appended) ∧
    countRole Role.assistant (agentRun A msgs).2 = N ∧
    countRole Role.tool (agentRun A msgs).2 = N := by
  subst hN
  obtain ⟨app, happ, hca, hct⟩ := agentStepRec_exhausts A hprov hparse
    A.config.maxIterations 0 (primeSystem A msgs) (by omega) (by omega)
  unfold agentRun
  rw [happ]
  refine ⟨rfl, ⟨app, rfl⟩, ?_, ?_⟩
  · rw [countRole_append,
      countRole_primeSystem A msgs Role.assistant (by decide), hassistant, hca]
    omega
  · rw [countRole_append,
      countRole_primeSystem A msgs Role.tool (by decide), htool, hct]
    omega

/-- C1 witness: a provider that always answers with an inline tool call,
two iterations allowed, starting from a single user message. -/
theorem run_max_iterations_witness :
    (agentRun agentMaxW [userHiW]).1 = .error (.maxIterations 2) ∧
    countRole Role.assistant (agentRun agentMaxW [userHiW]).2 = 2 ∧
    countRole Role.tool (agentRun agentMaxW [userHiW]).2 = 2 := by
  obtain ⟨h1, -, h3, h4⟩ := run_max_iterations agentMaxW [userHiW] 2 rfl
    (by decide)
    (fun m => ⟨compToolW, rfl⟩)
    (fun m c s hc => by
      have h2 : (Except.ok compToolW : Except AgentError Completion) = .ok c := hc
      have hcc : compToolW = c := by injection h2
      subst hcc
      intro hbad
      rw [show parseToolCall agentMaxW.fromStr s compToolW.content =
        some nopeCallW from rfl] at hbad
      exact Option.noConfusion hbad)
    rfl rfl
  exact ⟨h1, h3, h4⟩

end AgentCore
